import Mathlib

/-!
Shallow embedding of the MPCAP packet-capture core of this repository
(src/vppinfra/mpcap.h) and proofs about its append path.

Modelling conventions:
* machine integers (u32, u64, i32) are Nat / Int, with the wrap-arounds the
  C types force made explicit (mod 2^32, signed reinterpretation);
* addresses (u8 pointers into the mapped region) are Nat;
* the f64 timestamps are exact rationals, and the two float-to-integer
  conversions the source performs are modelled as truncation toward zero of
  the exact value (double rounding is abstracted away; the properties proved
  about timestamps carry a 1-microsecond tolerance exactly so that this
  abstraction is harmless);
* the contents of the mapped region after the file header are modelled as
  the list of packet records written into it;
* bodies declared in mpcap.h but implemented in vppinfra/mpcap.c (which is
  not part of this slice) are modelled from the spec and say so in their
  doc comments.
-/

/-- The modulus of the C u32 type. -/
def U32_MOD : Nat := 4294967296

/-- The value a u32 variable holds after a Nat-valued computation. -/
def toU32 (n : Nat) : Nat := n % U32_MOD

/-- The value an i32 variable holds after assignment from a u32 value
(two-complement reinterpretation, as gcc implements the conversion). -/
def i32ofU32 (n : Nat) : Int :=
  if n < 2147483648 then (n : Int) else (n : Int) - (U32_MOD : Int)

/-- The u32 value obtained by converting an i32 value (mod 2^32). -/
def u32ofI32 (i : Int) : Nat := (i % (U32_MOD : Int)).toNat

/-- C conversion of a double to u32 as the source applies it: truncation
toward zero, which on the non-negative values the capture path feeds it is
the floor, reduced to the u32 width.  (For a negative argument below -1 or a
value at or above 2^32 the C conversion is undefined behaviour; this model
picks floor-then-clamp-then-wrap there.) -/
def f64toU32 (q : ℚ) : Nat := toU32 (Int.toNat ⌊q⌋)

/-- File header fields, from foreach_mpcap_file_header in mpcap.h
(u32 magic; u16 major_version; u16 minor_version; u32 time_zone;
u32 sigfigs; u32 max_packet_size_in_bytes; u32 packet_type). -/
structure mpcap_file_header_t where
  magic : Nat
  major_version : Nat
  minor_version : Nat
  time_zone : Nat
  sigfigs : Nat
  max_packet_size_in_bytes : Nat
  packet_type : Nat
  deriving DecidableEq

/-- The four bytes of a u32 field in host (little-endian) byte order. -/
def u32bytes (x : Nat) : List Nat :=
  [x % 256, x / 256 % 256, x / 65536 % 256, x / 16777216 % 256]

/-- The two bytes of a u16 field in host byte order. -/
def u16bytes (x : Nat) : List Nat := [x % 256, x / 256 % 256]

/-- On-disk serialization of mpcap_file_header_t: the fields one after the
other with no padding (every field of the C struct is naturally aligned). -/
def mpcap_file_header_bytes (h : mpcap_file_header_t) : List Nat :=
  u32bytes h.magic ++ u16bytes h.major_version ++ u16bytes h.minor_version ++
    u32bytes h.time_zone ++ u32bytes h.sigfigs ++
    u32bytes h.max_packet_size_in_bytes ++ u32bytes h.packet_type

/-- sizeof (mpcap_file_header_t): u32 + u16 + u16 + u32 + u32 + u32 + u32. -/
def mpcap_file_header_size : Nat := 4 + 2 + 2 + 4 + 4 + 4 + 4

/-- Packet record header fields, from foreach_mpcap_packet_header in
mpcap.h: four u32 fields. -/
structure mpcap_packet_header_t where
  time_in_sec : Nat
  time_in_usec : Nat
  n_packet_bytes_stored_in_file : Nat
  n_bytes_in_packet : Nat
  deriving DecidableEq

/-- sizeof (mpcap_packet_header_t): four u32 fields (the trailing
u8 data[0] member contributes no bytes). -/
def mpcap_packet_header_size : Nat := 4 + 4 + 4 + 4

/-- One packet record as laid down in the mapped region: the offset of its
header, the 16-byte header written by mpcap_add_packet, and the payload
bytes copied right after the header by the loop in mpcap_add_buffer. -/
structure PacketRecord where
  offset : Nat
  header : mpcap_packet_header_t
  data : List Nat
  deriving DecidableEq

/-- mpcap_main_t (mpcap.h lines 105-151), restricted to the fields the
append path reads or writes.  init_done is the MPCAP_FLAG_INIT_DONE bit of
the flags word; records models the bytes of the mapped region after the
file header; on_disk_bytes models the current size of the backing file. -/
structure mpcap_main_t where
  n_packets_to_capture : Nat
  max_file_size : Nat
  file_baseva : Nat
  current_va : Nat
  n_packets_captured : Nat
  init_done : Bool
  min_packet_bytes : Nat
  max_packet_bytes : Nat
  records : List PacketRecord
  on_disk_bytes : Nat
  deriving DecidableEq

/-- Modelled from the spec: the body of mpcap_close lives in
vppinfra/mpcap.c, which is not part of this repository slice (mpcap.h only
declares it).  Spec section 4.5: idempotent, so closing an already-closed
session is a no-op; otherwise it clears the open flag, flushes the used
bytes and truncates the backing file to the used length
current_va - file_baseva. -/
def mpcap_close (pm : mpcap_main_t) : mpcap_main_t :=
  if pm.init_done = false then pm
  else { pm with init_done := false,
                 on_disk_bytes := pm.current_va - pm.file_baseva }

/-- Modelled from the spec: the body of mpcap_init lives in
vppinfra/mpcap.c, not in this slice.  Spec section 4.5: it creates the
backing file sized max_file_size, maps it, writes the file header at the
base of the region, sets the cursor to just after the header, clears the
counters and marks the session open. -/
def mpcap_init (pm : mpcap_main_t) : mpcap_main_t :=
  { pm with current_va := pm.file_baseva + mpcap_file_header_size,
            n_packets_captured := 0,
            records := [],
            init_done := true,
            on_disk_bytes := pm.max_file_size }

/-- mpcap_add_packet (mpcap.h lines 176-200), translated clause by clause.
On success the C function writes the record header at the old cursor and
returns the pointer h->data; on failure it returns 0.  The model returns
the updated state together with (on success) the offset of the record and
the header written there.  Note that the source advances current_va before
the out-of-space test and does not undo the advance when the test fails,
and that the test rejects equality (cursor + footprint = base + max). -/
def mpcap_add_packet (pm : mpcap_main_t) (time_now : ℚ)
    (n_bytes_in_trace : Nat) (n_bytes_in_packet : Nat) :
    mpcap_main_t × Option (Nat × mpcap_packet_header_t) :=
  if pm.init_done = false then
    (pm, none)
  else
    let d := pm.current_va
    let pm1 := { pm with
      current_va := pm.current_va + mpcap_packet_header_size + n_bytes_in_trace }
    if pm1.file_baseva + pm1.max_file_size ≤ pm1.current_va then
      (pm1, none)
    else
      let sec := f64toU32 time_now
      let usec := f64toU32 ((1000000 : ℚ) * (time_now - (sec : ℚ)))
      ({ pm1 with n_packets_captured := toU32 (pm1.n_packets_captured + 1) },
       some (d, { time_in_sec := sec, time_in_usec := usec,
                  n_packet_bytes_stored_in_file := toU32 n_bytes_in_trace,
                  n_bytes_in_packet := toU32 n_bytes_in_packet }))

/-- The slice of a vlib_buffer_t the copy loop of mpcap_add_buffer reads:
current_length, the VLIB_BUFFER_NEXT_PRESENT bit of the flags word, and the
current_length bytes at b.data + b.current_data. -/
structure vlib_buffer_t where
  current_length : Nat
  has_next : Bool
  data : List Nat
  deriving DecidableEq

/-- A packet buffer chain as mpcap_add_buffer sees it: the u32 total length
reported by vlib_buffer_length_in_chain (an external vlib collaborator, so
an input of the model), and the buffers reached from the head buffer by
successive next_buffer links. -/
structure BufferChain where
  total_length : Nat
  segs : List vlib_buffer_t
  deriving DecidableEq

/-- The while (1) copy loop of mpcap_add_buffer (mpcap.h lines 232-242).
Each pass copies min ((u32) n_left, b.current_length) bytes of the current
buffer, subtracts the full current_length from n_left, breaks when n_left
has dropped to 0 or below, and otherwise moves to the next buffer after
asserting VLIB_BUFFER_NEXT_PRESENT.  Stepping past the supplied buffers -
needing more bytes with no next buffer - aborts on the ASSERT in a debug
build and dereferences a stale next_buffer in a release build, so the model
makes that outcome none (undefined). -/
def mpcap_copy_loop (n_left : Int) (segs : List vlib_buffer_t)
    (acc : List Nat) : Option (List Nat) :=
  match segs with
  | [] => none
  | b :: rest =>
    let copy_length := min (u32ofI32 n_left) b.current_length
    let acc2 := acc ++ b.data.take copy_length
    let n_left2 := n_left - (b.current_length : Int)
    if n_left2 ≤ 0 then some acc2
    else if b.has_next = true then mpcap_copy_loop n_left2 rest acc2
    else none

/-- mpcap_add_buffer (mpcap.h lines 212-247).  The spinlock is modelled
away (the model is the sequential semantics under the lock).  The C
function returns void; the Bool of the model is whether a record was
written (the d != 0 test of the source).  none models the copy loop
stepping off a malformed chain.  The record whose header mpcap_add_packet
wrote is appended to the region model together with the copied payload. -/
def mpcap_add_buffer (pm : mpcap_main_t) (time_now : ℚ)
    (chain : BufferChain) (n_bytes_in_trace : Nat) :
    Option (mpcap_main_t × Bool) :=
  let n := toU32 chain.total_length
  let n_left : Int := i32ofU32 (min (toU32 n_bytes_in_trace) n)
  match mpcap_add_packet pm time_now (u32ofI32 n_left) n with
  | (pm1, none) => some (mpcap_close pm1, false)
  | (pm1, some dh) =>
    match mpcap_copy_loop n_left chain.segs [] with
    | none => none
    | some payload =>
      let pm2 := { pm1 with
        records := pm1.records ++
          [{ offset := dh.1, header := dh.2, data := payload }] }
      let pm3 := if pm2.n_packets_to_capture ≤ pm2.n_packets_captured
                 then mpcap_close pm2 else pm2
      some (pm3, true)

/-- The inputs of one capture call: timestamp, buffer chain, per-call
capture limit (the n_bytes_in_trace argument of mpcap_add_buffer). -/
structure AppendIn where
  t : ℚ
  chain : BufferChain
  limit : Nat
  deriving DecidableEq

/-- Fold a list of calls through mpcap_add_buffer, requiring every call to
report a written record. -/
def mpcap_run_written (pm : mpcap_main_t) :
    List AppendIn → Option mpcap_main_t
  | [] => some pm
  | i :: rest =>
    match mpcap_add_buffer pm i.t i.chain i.limit with
    | some (pm1, true) => mpcap_run_written pm1 rest
    | _ => none

/-- Fold a list of calls through mpcap_add_buffer, keeping whatever outcome
each call reports. -/
def mpcap_run_any (pm : mpcap_main_t) :
    List AppendIn → Option mpcap_main_t
  | [] => some pm
  | i :: rest =>
    match mpcap_add_buffer pm i.t i.chain i.limit with
    | some (pm1, _) => mpcap_run_any pm1 rest
    | none => none

/-- Total number of payload bytes the supplied buffers of a chain hold. -/
def segsLen (segs : List vlib_buffer_t) : Nat :=
  (segs.map vlib_buffer_t.current_length).sum

/-- Concatenation of the payload bytes of the supplied buffers. -/
def segsBytes : List vlib_buffer_t → List Nat
  | [] => []
  | b :: rest => b.data ++ segsBytes rest

/-- Every buffer of the list except the last carries the next-present
flag. -/
def chainLinked : List vlib_buffer_t → Bool
  | [] => true
  | [_] => true
  | b :: rest => b.has_next && chainLinked rest

/-- A well-formed chain: at least one buffer, consistent next links, the
reported total length equal to the bytes actually supplied, and every
buffer holding exactly current_length bytes. -/
def WFChain (c : BufferChain) : Prop :=
  c.segs ≠ [] ∧ chainLinked c.segs = true ∧
    c.total_length = segsLen c.segs ∧
    ∀ b ∈ c.segs, b.data.length = b.current_length

/-- A well-formed capture call: well-formed chain, total length within the
i32 range the copy loop arithmetic needs, limit a u32 value. -/
def WFIn (i : AppendIn) : Prop :=
  WFChain i.chain ∧ i.chain.total_length < 2147483648 ∧ i.limit < U32_MOD

/-- Sum of the on-disk footprints (16-byte header plus stored bytes) of a
list of records. -/
def recFootprint (rs : List PacketRecord) : Nat :=
  (rs.map (fun r =>
    mpcap_packet_header_size + r.header.n_packet_bytes_stored_in_file)).sum

/-- The records of a list lie contiguously one after the other starting at
the given offset, each taking 16 bytes of header plus its stored bytes. -/
def contigFromB : Nat → List PacketRecord → Bool
  | _, [] => true
  | off, r :: rest =>
    (r.offset == off) &&
      contigFromB
        (off + mpcap_packet_header_size + r.header.n_packet_bytes_stored_in_file)
        rest

/-- The shape of the mapped region maintained by successful appends: the
cursor sits exactly at the end of the laid-down records, the records are
contiguous from the end of the file header, and a closed session's backing
file has been truncated to the used length. -/
def RegionInv (pm : mpcap_main_t) : Prop :=
  pm.current_va =
    pm.file_baseva + mpcap_file_header_size + recFootprint pm.records ∧
  contigFromB (pm.file_baseva + mpcap_file_header_size) pm.records = true ∧
  (pm.init_done = false → pm.on_disk_bytes = pm.current_va - pm.file_baseva)

/-- A small open session used to instantiate the theorems on concrete
inputs: an empty 100-byte capture region based at address 0, cursor just
past the file header, target count 10. -/
def pmOpenW : mpcap_main_t :=
  { n_packets_to_capture := 10, max_file_size := 100, file_baseva := 0,
    current_va := 24, n_packets_captured := 0, init_done := true,
    min_packet_bytes := 0, max_packet_bytes := 0, records := [],
    on_disk_bytes := 100 }

/-- A well-formed single-buffer chain holding the three bytes 7, 8, 9. -/
def chainW : BufferChain :=
  { total_length := 3,
    segs := [{ current_length := 3, has_next := false, data := [7, 8, 9] }] }

/-- A malformed chain: it reports 10 bytes but supplies a single 5-byte
buffer with no next buffer. -/
def chainC4 : BufferChain :=
  { total_length := 10,
    segs := [{ current_length := 5, has_next := false, data := [1, 2, 3, 4, 5] }] }

/-- A chain that exactly fills the capacity left in pmOpenW when captured
whole: 16 + 60 bytes on top of cursor 24 reach exactly base + 100. -/
def chainC1 : BufferChain :=
  { total_length := 60,
    segs := [{ current_length := 60, has_next := false,
               data := List.replicate 60 0 }] }

/-- The session state mpcap_add_buffer pmOpenW 0 chainW 3 produces: one
record of 3 payload bytes laid down at offset 24, cursor at 43. -/
def pmFW : mpcap_main_t :=
  { n_packets_to_capture := 10, max_file_size := 100, file_baseva := 0,
    current_va := 43, n_packets_captured := 1, init_done := true,
    min_packet_bytes := 0, max_packet_bytes := 0,
    records := [{ offset := 24,
                  header := { time_in_sec := f64toU32 0,
                              time_in_usec := f64toU32 ((1000000 : ℚ) *
                                ((0 : ℚ) - (f64toU32 (0 : ℚ) : ℚ))),
                              n_packet_bytes_stored_in_file := 3,
                              n_bytes_in_packet := 3 },
                  data := [7, 8, 9] }],
    on_disk_bytes := 100 }

/-- The timestamp 2.0000005 s of the rounding test. -/
def tW : ℚ := 20000005 / 10000000

/-- pmOpenW with pre-existing min/max packet-size statistics, to observe
that the append path leaves them alone. -/
def pmC5x : mpcap_main_t :=
  { pmOpenW with min_packet_bytes := 100, max_packet_bytes := 200 }

/-- pmOpenW configured to capture a single packet. -/
def pmTgt1 : mpcap_main_t := { pmOpenW with n_packets_to_capture := 1 }

/-- The state mpcap_add_buffer pmTgt1 0 chainW 3 produces: the one recorded
packet reaches the target count, so the session has been closed and the
backing file truncated to the 43 used bytes. -/
def pm2W9 : mpcap_main_t :=
  { n_packets_to_capture := 1, max_file_size := 100, file_baseva := 0,
    current_va := 43, n_packets_captured := 1, init_done := false,
    min_packet_bytes := 0, max_packet_bytes := 0,
    records := [{ offset := 24,
                  header := { time_in_sec := f64toU32 0,
                              time_in_usec := f64toU32 ((1000000 : ℚ) *
                                ((0 : ℚ) - (f64toU32 (0 : ℚ) : ℚ))),
                              n_packet_bytes_stored_in_file := 3,
                              n_bytes_in_packet := 3 },
                  data := [7, 8, 9] }],
    on_disk_bytes := 43 }

instance (c : BufferChain) : Decidable (WFChain c) := by
  unfold WFChain; infer_instance

instance (i : AppendIn) : Decidable (WFIn i) := by
  unfold WFIn; infer_instance

lemma toU32_eq_self {n : Nat} (h : n < U32_MOD) : toU32 n = n :=
  Nat.mod_eq_of_lt h

lemma i32ofU32_of_lt {n : Nat} (h : n < 2147483648) : i32ofU32 n = (n : Int) := by
  simp [i32ofU32, h]

lemma u32ofI32_of_nonneg_lt {i : Int} (h0 : 0 ≤ i) (h : i < 2147483648) :
    u32ofI32 i = i.toNat := by
  unfold u32ofI32 U32_MOD
  omega

lemma u32ofI32_i32ofU32 {n : Nat} (h : n < U32_MOD) :
    u32ofI32 (i32ofU32 n) = n := by
  unfold u32ofI32 i32ofU32 U32_MOD at *
  split <;> omega

lemma segsLen_nil : segsLen [] = 0 := rfl

lemma segsLen_cons (b : vlib_buffer_t) (rest : List vlib_buffer_t) :
    segsLen (b :: rest) = b.current_length + segsLen rest := by
  simp [segsLen]

lemma segsBytes_cons (b : vlib_buffer_t) (rest : List vlib_buffer_t) :
    segsBytes (b :: rest) = b.data ++ segsBytes rest := rfl

lemma chainLinked_cons_cons (b r : vlib_buffer_t) (rs : List vlib_buffer_t) :
    chainLinked (b :: r :: rs) = (b.has_next && chainLinked (r :: rs)) := rfl

/-- A chain that claims more bytes than its buffers supply drives the copy
loop off the end of the chain: the has-next assertion fails (or, links
permitting, the loop runs out of buffers), modelled as none. -/
lemma mpcap_copy_loop_short (n_left : Int) (segs : List vlib_buffer_t)
    (acc : List Nat) (h : (segsLen segs : Int) < n_left) :
    mpcap_copy_loop n_left segs acc = none := by
  induction segs generalizing n_left acc with
  | nil => rfl
  | cons b rest ih =>
    simp only [mpcap_copy_loop]
    have hlen : (segsLen (b :: rest) : Int) =
        (b.current_length : Int) + (segsLen rest : Int) := by
      rw [segsLen_cons]; push_cast; ring
    have h2 : ¬ (n_left - (b.current_length : Int) ≤ 0) := by omega
    rw [if_neg h2]
    by_cases hb : b.has_next = true
    · rw [if_pos hb]
      exact ih _ _ (by omega)
    · rw [if_neg hb]

/-- On a consistent chain the copy loop succeeds and copies exactly the
first n_left bytes of the concatenated buffer contents. -/
lemma mpcap_copy_loop_complete (segs : List vlib_buffer_t) (n_left : Int)
    (acc : List Nat) (hne : segs ≠ []) (h0 : 0 ≤ n_left)
    (hlt : n_left < 2147483648) (hle : n_left ≤ (segsLen segs : Int))
    (hlink : chainLinked segs = true)
    (hdata : ∀ b ∈ segs, b.data.length = b.current_length) :
    mpcap_copy_loop n_left segs acc =
      some (acc ++ (segsBytes segs).take n_left.toNat) := by
  induction segs generalizing n_left acc with
  | nil => exact absurd rfl hne
  | cons b rest ih =>
    simp only [mpcap_copy_loop]
    rw [u32ofI32_of_nonneg_lt h0 hlt]
    have hdb : b.data.length = b.current_length := hdata b (by simp)
    rw [segsBytes_cons]
    by_cases hstop : n_left - (b.current_length : Int) ≤ 0
    · rw [if_pos hstop]
      have hmin : min n_left.toNat b.current_length = n_left.toNat := by omega
      rw [hmin, List.take_append_of_le_length (by omega)]
    · rw [if_neg hstop]
      have hrest_ne : rest ≠ [] := by
        intro hrnil
        subst hrnil
        rw [segsLen_cons, segsLen_nil] at hle
        omega
      have hb : b.has_next = true := by
        cases rest with
        | nil => exact absurd rfl hrest_ne
        | cons r rs =>
          rw [chainLinked_cons_cons] at hlink
          simp at hlink
          exact hlink.1
      have hlink2 : chainLinked rest = true := by
        cases rest with
        | nil => rfl
        | cons r rs =>
          rw [chainLinked_cons_cons] at hlink
          simp at hlink
          exact hlink.2
      rw [if_pos hb]
      have hmin : min n_left.toNat b.current_length = b.current_length := by omega
      have htake : b.data.take b.current_length = b.data := by
        rw [← hdb]
        exact List.take_length b.data
      rw [hmin, htake]
      have hlen : (segsLen (b :: rest) : Int) =
          (b.current_length : Int) + (segsLen rest : Int) := by
        rw [segsLen_cons]; push_cast; ring
      rw [ih _ _ hrest_ne (by omega) (by omega) (by omega) hlink2
            (fun q hq => hdata q (by simp [hq]))]
      have hsplit : n_left.toNat = b.data.length + (n_left - (b.current_length : Int)).toNat := by
        omega
      rw [hsplit, List.take_append, List.append_assoc]

lemma mpcap_add_packet_closed (pm : mpcap_main_t) (t : ℚ) (a bb : Nat)
    (h : pm.init_done = false) :
    mpcap_add_packet pm t a bb = (pm, none) := by
  simp [mpcap_add_packet, h]

lemma mpcap_add_packet_oos (pm : mpcap_main_t) (t : ℚ) (a bb : Nat)
    (hopen : pm.init_done = true)
    (hsp : pm.file_baseva + pm.max_file_size ≤
      pm.current_va + mpcap_packet_header_size + a) :
    mpcap_add_packet pm t a bb =
      ({ pm with current_va := pm.current_va + mpcap_packet_header_size + a },
       none) := by
  simp [mpcap_add_packet, hopen, hsp]

lemma mpcap_add_packet_success (pm : mpcap_main_t) (t : ℚ) (a bb : Nat)
    (hopen : pm.init_done = true)
    (hsp : pm.current_va + mpcap_packet_header_size + a <
      pm.file_baseva + pm.max_file_size) :
    mpcap_add_packet pm t a bb =
      ({ pm with
          current_va := pm.current_va + mpcap_packet_header_size + a,
          n_packets_captured := toU32 (pm.n_packets_captured + 1) },
       some (pm.current_va,
         { time_in_sec := f64toU32 t,
           time_in_usec := f64toU32 ((1000000 : ℚ) * (t - (f64toU32 t : ℚ))),
           n_packet_bytes_stored_in_file := toU32 a,
           n_bytes_in_packet := toU32 bb })) := by
  have hnot : ¬ (pm.file_baseva + pm.max_file_size ≤
      pm.current_va + mpcap_packet_header_size + a) := by omega
  simp [mpcap_add_packet, hopen, hnot]

lemma lt_U32_of_lt_i32max {n : Nat} (h : n < 2147483648) : n < U32_MOD := by
  unfold U32_MOD
  omega

lemma mpcap_add_buffer_closed (pm : mpcap_main_t) (t : ℚ) (chain : BufferChain)
    (limit : Nat) (h : pm.init_done = false) :
    mpcap_add_buffer pm t chain limit = some (pm, false) := by
  simp only [mpcap_add_buffer]
  rw [mpcap_add_packet_closed _ _ _ _ h]
  simp [mpcap_close, h]

lemma mpcap_add_buffer_oos (pm : mpcap_main_t) (t : ℚ) (chain : BufferChain)
    (limit : Nat) (hopen : pm.init_done = true)
    (htot : chain.total_length < 2147483648) (hlim : limit < U32_MOD)
    (hsp : pm.file_baseva + pm.max_file_size ≤
      pm.current_va + mpcap_packet_header_size + min limit chain.total_length) :
    mpcap_add_buffer pm t chain limit =
      some (mpcap_close { pm with current_va :=
        pm.current_va + mpcap_packet_header_size + min limit chain.total_length },
        false) := by
  have hminU : min limit chain.total_length < U32_MOD :=
    lt_of_le_of_lt (min_le_left _ _) hlim
  simp only [mpcap_add_buffer]
  rw [toU32_eq_self (lt_U32_of_lt_i32max htot), toU32_eq_self hlim,
      u32ofI32_i32ofU32 hminU, mpcap_add_packet_oos _ _ _ _ hopen hsp]

lemma mpcap_add_buffer_success_exists (pm : mpcap_main_t) (t : ℚ)
    (chain : BufferChain) (limit : Nat) (hopen : pm.init_done = true)
    (hwf : WFChain chain) (htot : chain.total_length < 2147483648)
    (hlim : limit < U32_MOD)
    (hroom : pm.current_va + mpcap_packet_header_size + min limit chain.total_length <
      pm.file_baseva + pm.max_file_size) :
    ∃ pm2, mpcap_add_buffer pm t chain limit = some (pm2, true) := by
  obtain ⟨hne, hlink, hlen, hdata⟩ := hwf
  have hminU : min limit chain.total_length < U32_MOD :=
    lt_of_le_of_lt (min_le_left _ _) hlim
  have hmin31 : min limit chain.total_length < 2147483648 :=
    lt_of_le_of_lt (min_le_right _ _) htot
  simp only [mpcap_add_buffer]
  rw [toU32_eq_self (lt_U32_of_lt_i32max htot), toU32_eq_self hlim,
      u32ofI32_i32ofU32 hminU, mpcap_add_packet_success _ _ _ _ hopen hroom,
      i32ofU32_of_lt hmin31,
      mpcap_copy_loop_complete chain.segs _ [] hne (by positivity)
        (by exact_mod_cast hmin31) (by rw [← hlen]; exact_mod_cast min_le_right _ _)
        hlink hdata]
  exact ⟨_, rfl⟩

lemma mpcap_add_buffer_true_inv (pm pm2 : mpcap_main_t) (t : ℚ)
    (chain : BufferChain) (limit : Nat)
    (hlim : limit < U32_MOD) (htot : chain.total_length < 2147483648)
    (h : mpcap_add_buffer pm t chain limit = some (pm2, true)) :
    pm.init_done = true ∧
    ∃ payload,
      pm2.n_packets_to_capture = pm.n_packets_to_capture ∧
      pm2.max_file_size = pm.max_file_size ∧
      pm2.file_baseva = pm.file_baseva ∧
      pm2.min_packet_bytes = pm.min_packet_bytes ∧
      pm2.max_packet_bytes = pm.max_packet_bytes ∧
      pm2.current_va = pm.current_va + mpcap_packet_header_size +
        min limit chain.total_length ∧
      pm2.n_packets_captured = toU32 (pm.n_packets_captured + 1) ∧
      pm2.records = pm.records ++
        [{ offset := pm.current_va,
           header := { time_in_sec := f64toU32 t,
                       time_in_usec :=
                         f64toU32 ((1000000 : ℚ) * (t - (f64toU32 t : ℚ))),
                       n_packet_bytes_stored_in_file :=
                         min limit chain.total_length,
                       n_bytes_in_packet := chain.total_length },
           data := payload }] ∧
      (pm2.init_done = false →
        pm2.on_disk_bytes = pm2.current_va - pm2.file_baseva) ∧
      pm.current_va + mpcap_packet_header_size + min limit chain.total_length <
        pm.file_baseva + pm.max_file_size := by
  have hminU : min limit chain.total_length < U32_MOD :=
    lt_of_le_of_lt (min_le_left _ _) hlim
  simp only [mpcap_add_buffer] at h
  rw [toU32_eq_self (lt_U32_of_lt_i32max htot), toU32_eq_self hlim,
      u32ofI32_i32ofU32 hminU] at h
  by_cases hinit : pm.init_done = false
  · rw [mpcap_add_packet_closed _ _ _ _ hinit] at h
    simp at h
  · have hopen : pm.init_done = true := by
      revert hinit; cases pm.init_done <;> simp
    by_cases hsp : pm.file_baseva + pm.max_file_size ≤
        pm.current_va + mpcap_packet_header_size + min limit chain.total_length
    · rw [mpcap_add_packet_oos _ _ _ _ hopen hsp] at h
      simp at h
    · push_neg at hsp
      rw [mpcap_add_packet_success _ _ _ _ hopen hsp] at h
      cases hcl : mpcap_copy_loop
          (i32ofU32 (min limit chain.total_length)) chain.segs [] with
      | none =>
        rw [hcl] at h
        simp at h
      | some payload =>
        rw [hcl] at h
        simp only [Option.some_inj, Prod.mk.injEq, and_true] at h
        rw [toU32_eq_self (lt_U32_of_lt_i32max htot), toU32_eq_self hminU] at h
        refine ⟨hopen, payload, ?_⟩
        by_cases hc : pm.n_packets_to_capture ≤ toU32 (pm.n_packets_captured + 1)
        · rw [if_pos (by simpa using hc)] at h
          subst h
          refine ⟨?_, ?_, ?_, ?_, ?_, ?_, ?_, ?_, ?_, hsp⟩ <;>
            simp [mpcap_close, hopen]
        · rw [if_neg (by simpa using hc)] at h
          subst h
          refine ⟨?_, ?_, ?_, ?_, ?_, ?_, ?_, ?_, ?_, hsp⟩ <;>
            simp [hopen]

lemma mpcap_run_any_closed (pm : mpcap_main_t) (l : List AppendIn)
    (h : pm.init_done = false) :
    mpcap_run_any pm l = some pm := by
  induction l with
  | nil => rfl
  | cons i rest ih =>
    simp only [mpcap_run_any]
    rw [mpcap_add_buffer_closed _ _ _ _ h]
    exact ih

lemma recFootprint_nil : recFootprint [] = 0 := rfl

lemma recFootprint_append (l1 l2 : List PacketRecord) :
    recFootprint (l1 ++ l2) = recFootprint l1 + recFootprint l2 := by
  simp [recFootprint]

lemma recFootprint_cons (a : PacketRecord) (l : List PacketRecord) :
    recFootprint (a :: l) =
      mpcap_packet_header_size + a.header.n_packet_bytes_stored_in_file +
        recFootprint l := by
  simp [recFootprint]

lemma contigFromB_append_single (o : Nat) (l : List PacketRecord)
    (r : PacketRecord) :
    contigFromB o (l ++ [r]) = true ↔
      (contigFromB o l = true ∧ r.offset = o + recFootprint l) := by
  induction l generalizing o with
  | nil =>
    simp [contigFromB, recFootprint]
  | cons a l2 ih =>
    rw [List.cons_append]
    simp only [contigFromB, Bool.and_eq_true, beq_iff_eq, ih, recFootprint_cons]
    constructor
    · rintro ⟨h1, h2, h3⟩
      exact ⟨⟨h1, h2⟩, by omega⟩
    · rintro ⟨⟨h1, h2⟩, h3⟩
      exact ⟨h1, h2, by omega⟩

lemma RegionInv_init (pm : mpcap_main_t) : RegionInv (mpcap_init pm) := by
  refine ⟨?_, ?_, ?_⟩ <;> simp [mpcap_init, recFootprint, contigFromB]

lemma RegionInv_step (pm pm2 : mpcap_main_t) (i : AppendIn) (hwf : WFIn i)
    (hinv : RegionInv pm)
    (h : mpcap_add_buffer pm i.t i.chain i.limit = some (pm2, true)) :
    RegionInv pm2 := by
  obtain ⟨hwfc, htot, hlim⟩ := hwf
  obtain ⟨hopen, payload, hcap, hmax, hbase, hmin2, hmax2, hcur, hcnt, hrec,
    hdisk, hroom⟩ := mpcap_add_buffer_true_inv pm pm2 i.t i.chain i.limit hlim htot h
  obtain ⟨hinv1, hinv2, hinv3⟩ := hinv
  refine ⟨?_, ?_, hdisk⟩
  · rw [hcur, hrec, recFootprint_append, hinv1, hbase]
    simp [recFootprint, mpcap_packet_header_size]
    omega
  · rw [hrec, hbase, contigFromB_append_single]
    exact ⟨hinv2, hinv1⟩

/-- Claim C1 (corrected).  The out-of-space test of mpcap_add_packet is
cursor + F >= base + max_file_size, so an append whose footprint
F = 16 + n_captured EXACTLY fills the remaining capacity is rejected, not
accepted: success requires cursor + F < base + max_file_size strictly,
while cursor + F >= base + max_file_size (exact fill included) writes
nothing into the region, closes the session and reports not written. -/
theorem C1_capacity_boundary (pm : mpcap_main_t) (t : ℚ) (chain : BufferChain)
    (limit : Nat) (hopen : pm.init_done = true) (hwf : WFChain chain)
    (htot : chain.total_length < 2147483648) (hlim : limit < U32_MOD) :
    (pm.current_va + (mpcap_packet_header_size + min limit chain.total_length) <
        pm.file_baseva + pm.max_file_size →
      Option.map Prod.snd (mpcap_add_buffer pm t chain limit) = some true) ∧
    (pm.file_baseva + pm.max_file_size ≤
        pm.current_va + (mpcap_packet_header_size + min limit chain.total_length) →
      Option.map Prod.snd (mpcap_add_buffer pm t chain limit) = some false ∧
      Option.map (fun r => r.1.init_done) (mpcap_add_buffer pm t chain limit) =
        some false ∧
      Option.map (fun r => r.1.records) (mpcap_add_buffer pm t chain limit) =
        some pm.records) := by
  constructor
  · intro hroom
    obtain ⟨pm2, hab⟩ := mpcap_add_buffer_success_exists pm t chain limit hopen
      hwf htot hlim (by omega)
    rw [hab]
    rfl
  · intro hsp
    rw [mpcap_add_buffer_oos pm t chain limit hopen htot hlim (by omega)]
    refine ⟨rfl, ?_, ?_⟩ <;> simp [mpcap_close, hopen]

/-- Witness for C1 at a concrete input whose footprint fits strictly. -/
theorem C1_capacity_boundary_witness :
    (pmOpenW.init_done = true ∧ WFChain chainW ∧
      pmOpenW.current_va + (mpcap_packet_header_size + min 3 chainW.total_length) <
        pmOpenW.file_baseva + pmOpenW.max_file_size) ∧
    Option.map Prod.snd (mpcap_add_buffer pmOpenW 0 chainW 3) = some true :=
  ⟨⟨by decide, by decide, by decide⟩,
   (C1_capacity_boundary pmOpenW 0 chainW 3 (by decide) (by decide) (by decide)
      (by decide)).1 (by decide)⟩

/-- Counterexample to C1 as stated: chainC1 captured whole has footprint
16 + 60 and pmOpenW has exactly 76 bytes of capacity left
(cursor 24, base 0, max 100), yet the append reports not written. -/
theorem C1_exact_fill_cex :
    pmOpenW.current_va + (mpcap_packet_header_size + min 60 chainC1.total_length) =
      pmOpenW.file_baseva + pmOpenW.max_file_size ∧
    Option.map Prod.snd (mpcap_add_buffer pmOpenW 0 chainC1 60) = some false := by
  decide

/-- Claim C2 (corrected).  base <= cursor is preserved by every append and
the cursor is exactly cursor + 16 + n_captured after any append that finds
the session open - written or not - while a closed session leaves the state
untouched; when a record is written the new cursor is strictly below
base + max_file_size.  The upper bound of the claim fails on the
out-of-space path (see the counterexample), and the cursor also grows on
that unsuccessful path, so it does not grow only when a record is
written. -/
theorem C2_cursor_bounds (pm : mpcap_main_t) (t : ℚ) (a bb : Nat)
    (hbase : pm.file_baseva ≤ pm.current_va) :
    pm.file_baseva ≤ (mpcap_add_packet pm t a bb).1.current_va ∧
    (pm.init_done = true →
      (mpcap_add_packet pm t a bb).1.current_va =
        pm.current_va + mpcap_packet_header_size + a) ∧
    (pm.init_done = false → (mpcap_add_packet pm t a bb).1 = pm) ∧
    ((mpcap_add_packet pm t a bb).2.isSome = true →
      pm.current_va < (mpcap_add_packet pm t a bb).1.current_va ∧
      (mpcap_add_packet pm t a bb).1.current_va <
        pm.file_baseva + pm.max_file_size) := by
  have h16 : mpcap_packet_header_size = 16 := rfl
  by_cases hinit : pm.init_done = false
  · rw [mpcap_add_packet_closed pm t a bb hinit]
    refine ⟨hbase, ?_, fun _ => rfl, ?_⟩
    · intro hopen
      rw [hinit] at hopen
      simp at hopen
    · intro hs
      simp at hs
  · have hopen : pm.init_done = true := by
      revert hinit; cases pm.init_done <;> simp
    by_cases hsp : pm.file_baseva + pm.max_file_size ≤
        pm.current_va + mpcap_packet_header_size + a
    · rw [mpcap_add_packet_oos pm t a bb hopen hsp]
      refine ⟨by simp; omega, fun _ => by simp, ?_, ?_⟩
      · intro hcl
        rw [hcl] at hopen
        simp at hopen
      · intro hs
        simp at hs
    · push_neg at hsp
      rw [mpcap_add_packet_success pm t a bb hopen hsp]
      refine ⟨by simp; omega, fun _ => by simp, ?_, ?_⟩
      · intro hcl
        rw [hcl] at hopen
        simp at hopen
      · intro _
        constructor
        · simp
          omega
        · simp
          omega

/-- Witness for C2 at a concrete open session. -/
theorem C2_cursor_bounds_witness :
    pmOpenW.file_baseva ≤ pmOpenW.current_va ∧
    pmOpenW.file_baseva ≤ (mpcap_add_packet pmOpenW 0 3 3).1.current_va :=
  ⟨by decide, (C2_cursor_bounds pmOpenW 0 3 3 (by decide)).1⟩

/-- Counterexample to C2 as stated: with base 0, max_file_size 100, cursor
at 90, an append of 50 captured bytes takes the out-of-space path after
having already advanced the cursor to 156, which exceeds
base + max_file_size = 100 and stays there, and the cursor grew although no
record was written. -/
theorem C2_overrun_cex :
    (mpcap_add_packet { pmOpenW with current_va := 90 } 0 50 50).2 = none ∧
    (mpcap_add_packet { pmOpenW with current_va := 90 } 0 50 50).1.current_va = 156 ∧
    ¬ ((mpcap_add_packet { pmOpenW with current_va := 90 } 0 50 50).1.current_va ≤
        pmOpenW.file_baseva + pmOpenW.max_file_size) := by
  decide

/-- Claim C4 (corrected).  The copy loop has no defensive truncation: when
the remaining copy length exceeds the bytes the supplied buffers hold, the
loop does not stop at the last available buffer - it fails the
VLIB_BUFFER_NEXT_PRESENT assertion (debug) or dereferences a stale
next_buffer (release), modelled as the undefined outcome none, instead of
returning the truncated bytes. -/
theorem C4_malformed_chain (n_left : Int) (segs : List vlib_buffer_t)
    (acc : List Nat) (hmal : (segsLen segs : Int) < n_left) :
    mpcap_copy_loop n_left segs acc = none :=
  mpcap_copy_loop_short n_left segs acc hmal

/-- Witness for C4 on a concrete malformed chain. -/
theorem C4_malformed_chain_witness :
    (segsLen chainC4.segs : Int) < 10 ∧
    mpcap_copy_loop 10 chainC4.segs [] = none :=
  ⟨by decide, C4_malformed_chain 10 chainC4.segs [] (by decide)⟩

/-- Counterexample to C4 as stated: on the malformed chainC4 (claims 10
bytes, supplies 5 with no next buffer) the whole append has no defined
result at all - it dies on the assertion - rather than ending the copy at
the last available buffer with no error. -/
theorem C4_malformed_chain_cex :
    mpcap_add_buffer pmOpenW 0 chainC4 10 = none ∧
    mpcap_copy_loop 10 chainC4.segs [] = none := by
  decide

/-- Claim C5 (corrected).  A successful append advances the cursor by
exactly 16 + n_captured and increments the packets-captured counter by one,
but it does NOT touch the min/max packet-size statistics: min_packet_bytes
and max_packet_bytes are left exactly as they were (no code in the append
path updates them). -/
theorem C5_advance_no_stats (pm : mpcap_main_t) (t : ℚ) (a bb : Nat)
    (hopen : pm.init_done = true)
    (hroom : pm.current_va + mpcap_packet_header_size + a <
      pm.file_baseva + pm.max_file_size)
    (hcap : pm.n_packets_captured + 1 < U32_MOD) :
    (mpcap_add_packet pm t a bb).1.current_va =
      pm.current_va + mpcap_packet_header_size + a ∧
    (mpcap_add_packet pm t a bb).1.n_packets_captured =
      pm.n_packets_captured + 1 ∧
    (mpcap_add_packet pm t a bb).1.min_packet_bytes = pm.min_packet_bytes ∧
    (mpcap_add_packet pm t a bb).1.max_packet_bytes = pm.max_packet_bytes ∧
    (mpcap_add_packet pm t a bb).2.isSome = true := by
  rw [mpcap_add_packet_success pm t a bb hopen hroom]
  exact ⟨rfl, toU32_eq_self hcap, rfl, rfl, rfl⟩

/-- Witness for C5 at a concrete open session. -/
theorem C5_advance_no_stats_witness :
    (pmOpenW.init_done = true ∧
      pmOpenW.current_va + mpcap_packet_header_size + 5 <
        pmOpenW.file_baseva + pmOpenW.max_file_size ∧
      pmOpenW.n_packets_captured + 1 < U32_MOD) ∧
    ((mpcap_add_packet pmOpenW 0 5 5).1.current_va =
        pmOpenW.current_va + mpcap_packet_header_size + 5 ∧
      (mpcap_add_packet pmOpenW 0 5 5).1.n_packets_captured =
        pmOpenW.n_packets_captured + 1 ∧
      (mpcap_add_packet pmOpenW 0 5 5).1.min_packet_bytes =
        pmOpenW.min_packet_bytes ∧
      (mpcap_add_packet pmOpenW 0 5 5).1.max_packet_bytes =
        pmOpenW.max_packet_bytes ∧
      (mpcap_add_packet pmOpenW 0 5 5).2.isSome = true) :=
  ⟨⟨by decide, by decide, by decide⟩,
   C5_advance_no_stats pmOpenW 0 5 5 (by decide) (by decide) (by decide)⟩

/-- Counterexample to C5 as stated: a session whose min_packet_bytes is 100
successfully appends a 10-byte packet; accounting for it would force the
minimum statistic down to at most 10, but the field is untouched (and the
maximum is untouched as well). -/
theorem C5_stats_not_updated_cex :
    ((mpcap_add_packet pmC5x 0 10 10).2).isSome = true ∧
    ¬ ((mpcap_add_packet pmC5x 0 10 10).1.min_packet_bytes ≤ 10) ∧
    (mpcap_add_packet pmC5x 0 10 10).1.max_packet_bytes = 200 := by
  decide

/-- Claim C8 (confirmed).  Once the open flag is cleared, every call of
mpcap_add_buffer is a safe no-op: mpcap_add_packet bails out before
touching anything, the mpcap_close the caller then performs is idempotent
on a closed session, and the call reports not written with the entire
session state - cursor, counters, region contents - unchanged. -/
theorem C8_closed_noop (pm : mpcap_main_t) (t : ℚ) (chain : BufferChain)
    (limit : Nat) (h : pm.init_done = false) :
    mpcap_add_buffer pm t chain limit = some (pm, false) :=
  mpcap_add_buffer_closed pm t chain limit h

/-- Witness for C8 on a concrete closed session. -/
theorem C8_closed_noop_witness :
    ({ pmOpenW with init_done := false } : mpcap_main_t).init_done = false ∧
    mpcap_add_buffer { pmOpenW with init_done := false } 0 chainW 3 =
      some ({ pmOpenW with init_done := false }, false) :=
  ⟨by decide, C8_closed_noop { pmOpenW with init_done := false } 0 chainW 3 (by decide)⟩

lemma mpcap_run_written_inv (inputs : List AppendIn) :
    ∀ pm pmF, RegionInv pm → (∀ i ∈ inputs, WFIn i) →
      mpcap_run_written pm inputs = some pmF → RegionInv pmF := by
  induction inputs with
  | nil =>
    intro pm pmF hinv _ h
    simp only [mpcap_run_written, Option.some_inj] at h
    rw [← h]
    exact hinv
  | cons i rest ih =>
    intro pm pmF hinv hall h
    simp only [mpcap_run_written] at h
    cases hab : mpcap_add_buffer pm i.t i.chain i.limit with
    | none =>
      rw [hab] at h
      exact Option.noConfusion h
    | some pr =>
      obtain ⟨pm1, b⟩ := pr
      rw [hab] at h
      cases b with
      | false => exact Option.noConfusion h
      | true =>
        exact ih pm1 pmF (RegionInv_step pm pm1 i (hall i (by simp)) hinv hab)
          (fun j hj => hall j (by simp [hj])) h

/-- Claim C3 (corrected).  The trace-file header is a fixed 24-byte - not
20-byte - structure written once at offset 0 (sizeof the seven-field C
struct is 24); packet records start contiguously at offset 24, and after a
run of successful appends followed by close, the backing file holds exactly
24 + the sum over all recorded packets of (16 + n_captured_i) bytes. -/
theorem C3_file_layout (pm0 pmF : mpcap_main_t) (inputs : List AppendIn)
    (hwf : ∀ i ∈ inputs, WFIn i)
    (hrun : mpcap_run_written (mpcap_init pm0) inputs = some pmF) :
    mpcap_file_header_size = 24 ∧
    (∀ h : mpcap_file_header_t, (mpcap_file_header_bytes h).length = 24) ∧
    contigFromB (pmF.file_baseva + mpcap_file_header_size) pmF.records = true ∧
    (mpcap_close pmF).on_disk_bytes =
      mpcap_file_header_size + recFootprint pmF.records := by
  obtain ⟨h1, h2, h3⟩ := mpcap_run_written_inv inputs (mpcap_init pm0) pmF
    (RegionInv_init pm0) hwf hrun
  refine ⟨rfl, ?_, h2, ?_⟩
  · intro hh
    simp [mpcap_file_header_bytes, u32bytes, u16bytes]
  · by_cases hcl : pmF.init_done = false
    · simp only [mpcap_close, hcl, if_pos]
      rw [h3 hcl, h1]
      omega
    · rw [mpcap_close, if_neg hcl]
      simp only
      rw [h1]
      omega

/-- Counterexample to C3 as stated: a fully populated header serializes to
24 bytes, not 20. -/
theorem C3_header_size_cex :
    (mpcap_file_header_bytes
      { magic := 2712847316, major_version := 2, minor_version := 4,
        time_zone := 0, sigfigs := 0, max_packet_size_in_bytes := 65535,
        packet_type := 1 }).length = 24 ∧
    ¬ ((mpcap_file_header_bytes
      { magic := 2712847316, major_version := 2, minor_version := 4,
        time_zone := 0, sigfigs := 0, max_packet_size_in_bytes := 65535,
        packet_type := 1 }).length = 20) ∧
    mpcap_file_header_size = 24 := by
  decide

/-- Witness for C3: one successful 3-byte append from a fresh session. -/
theorem C3_file_layout_witness :
    WFIn { t := 0, chain := chainW, limit := 3 } ∧
    contigFromB (pmFW.file_baseva + mpcap_file_header_size) pmFW.records = true ∧
    (mpcap_close pmFW).on_disk_bytes =
      mpcap_file_header_size + recFootprint pmFW.records :=
  ⟨by decide,
   (C3_file_layout pmOpenW pmFW [{ t := 0, chain := chainW, limit := 3 }]
      (by decide) (by rfl)).2.2.1,
   (C3_file_layout pmOpenW pmFW [{ t := 0, chain := chainW, limit := 3 }]
      (by decide) (by rfl)).2.2.2⟩

/-- Claim C6 (confirmed).  Every append that reports a written record lays
down a record whose header stores n_packet_bytes_stored_in_file =
min (caller limit, chain total length) and n_bytes_in_packet = the chain
total length, so n_bytes_in_packet >= n_packet_bytes_stored_in_file. -/
theorem C6_record_lengths (pm pm2 : mpcap_main_t) (t : ℚ) (chain : BufferChain)
    (limit : Nat) (hlim : limit < U32_MOD)
    (htot : chain.total_length < 2147483648)
    (h : mpcap_add_buffer pm t chain limit = some (pm2, true)) :
    (pm2.records.map (fun r =>
      (r.header.n_packet_bytes_stored_in_file, r.header.n_bytes_in_packet))).getLast? =
      some (min limit chain.total_length, chain.total_length) ∧
    min limit chain.total_length ≤ chain.total_length := by
  obtain ⟨-, payload, -, -, -, -, -, -, -, hrec, -, -⟩ :=
    mpcap_add_buffer_true_inv pm pm2 t chain limit hlim htot h
  refine ⟨?_, min_le_right _ _⟩
  rw [hrec, List.map_append]
  simp [List.getLast?_concat]

/-- Witness for C6: the concrete 3-byte append with limit 3. -/
theorem C6_record_lengths_witness :
    ((3 : Nat) < U32_MOD ∧ chainW.total_length < 2147483648) ∧
    ((pmFW.records.map (fun r =>
      (r.header.n_packet_bytes_stored_in_file, r.header.n_bytes_in_packet))).getLast? =
      some (min 3 chainW.total_length, chainW.total_length) ∧
    min 3 chainW.total_length ≤ chainW.total_length) :=
  ⟨⟨by decide, by decide⟩,
   C6_record_lengths pmOpenW pmFW 0 chainW 3 (by decide) (by decide) (by rfl)⟩

/-- Claim C9 (confirmed).  When an append raises the packets-captured
counter to (or past) the configured target count, mpcap_add_buffer closes
the session before returning, and from then on any sequence of further
calls leaves the session - records included - exactly as it is. -/
theorem C9_target_reached_closes (pm pm2 : mpcap_main_t) (t : ℚ)
    (chain : BufferChain) (limit : Nat)
    (h : mpcap_add_buffer pm t chain limit = some (pm2, true))
    (htarget : pm2.n_packets_to_capture ≤ pm2.n_packets_captured) :
    pm2.init_done = false ∧
    ∀ future, mpcap_run_any pm2 future = some pm2 := by
  suffices hcl : pm2.init_done = false by
    exact ⟨hcl, fun future => mpcap_run_any_closed pm2 future hcl⟩
  simp only [mpcap_add_buffer] at h
  by_cases hinit : pm.init_done = false
  · rw [mpcap_add_packet_closed _ _ _ _ hinit] at h
    simp at h
  · have hopen : pm.init_done = true := by
      revert hinit; cases pm.init_done <;> simp
    by_cases hsp : pm.file_baseva + pm.max_file_size ≤
        pm.current_va + mpcap_packet_header_size +
          u32ofI32 (i32ofU32 (min (toU32 limit) (toU32 chain.total_length)))
    · rw [mpcap_add_packet_oos _ _ _ _ hopen hsp] at h
      simp at h
    · push_neg at hsp
      rw [mpcap_add_packet_success _ _ _ _ hopen hsp] at h
      cases hcl2 : mpcap_copy_loop
          (i32ofU32 (min (toU32 limit) (toU32 chain.total_length)))
          chain.segs [] with
      | none =>
        rw [hcl2] at h
        simp at h
      | some payload =>
        rw [hcl2] at h
        simp only [Option.some_inj, Prod.mk.injEq, and_true] at h
        by_cases hc : pm.n_packets_to_capture ≤ toU32 (pm.n_packets_captured + 1)
        · rw [if_pos hc] at h
          rw [← h]
          simp [mpcap_close, hopen]
        · rw [if_neg hc] at h
          rw [← h] at htarget
          exact absurd htarget hc

/-- Witness for C9: with target count 1, the first successful append closes
the session, and a further call changes nothing. -/
theorem C9_target_reached_closes_witness :
    pm2W9.n_packets_to_capture ≤ pm2W9.n_packets_captured ∧
    pm2W9.init_done = false ∧
    mpcap_run_any pm2W9 [{ t := 0, chain := chainW, limit := 3 }] = some pm2W9 :=
  ⟨by decide,
   (C9_target_reached_closes pmTgt1 pm2W9 0 chainW 3 (by rfl) (by decide)).1,
   (C9_target_reached_closes pmTgt1 pm2W9 0 chainW 3 (by rfl) (by decide)).2
     [{ t := 0, chain := chainW, limit := 3 }]⟩

lemma mpcap_copy_loop_zero (b : vlib_buffer_t) (rest : List vlib_buffer_t)
    (acc : List Nat) : mpcap_copy_loop 0 (b :: rest) acc = some acc := by
  have h1 : u32ofI32 0 = 0 := by decide
  have h2 : (0 : Int) - (b.current_length : Int) ≤ 0 := by omega
  simp only [mpcap_copy_loop, h1, Nat.zero_min, List.take_zero, List.append_nil]
  rw [if_pos h2]

/-- Claim C10 (confirmed).  On an open session with at least 17 bytes of
remaining capacity, an append with capture limit 0 still writes a full
16-byte record header - stored bytes 0, original length the chain total -
copies no payload, advances the cursor by exactly 16 and increments the
packets-captured counter by one. -/
theorem C10_zero_limit (pm : mpcap_main_t) (t : ℚ) (chain : BufferChain)
    (hopen : pm.init_done = true)
    (hroom : pm.current_va + mpcap_packet_header_size + 1 ≤
      pm.file_baseva + pm.max_file_size)
    (hsegs : chain.segs ≠ [])
    (htot : chain.total_length < U32_MOD)
    (hcap : pm.n_packets_captured + 1 < U32_MOD) :
    (mpcap_add_buffer pm t chain 0).map (fun r =>
        (r.1.current_va, r.1.n_packets_captured,
         r.1.records.map (fun q => (q.offset,
           q.header.n_packet_bytes_stored_in_file,
           q.header.n_bytes_in_packet, q.data)),
         r.2)) =
      some (pm.current_va + mpcap_packet_header_size,
        pm.n_packets_captured + 1,
        pm.records.map (fun q => (q.offset,
          q.header.n_packet_bytes_stored_in_file,
          q.header.n_bytes_in_packet, q.data)) ++
          [(pm.current_va, 0, chain.total_length, ([] : List Nat))],
        true) := by
  obtain ⟨b, rest, hbs⟩ : ∃ b rest, chain.segs = b :: rest := by
    cases hs : chain.segs with
    | nil => exact absurd hs hsegs
    | cons b rest => exact ⟨b, rest, rfl⟩
  have hi0 : i32ofU32 0 = 0 := by decide
  have hu0 : u32ofI32 0 = 0 := by decide
  have hz : toU32 0 = 0 := by decide
  simp only [mpcap_add_buffer, hz, Nat.zero_min, hi0, hu0, toU32_eq_self htot]
  rw [mpcap_add_packet_success pm t 0 chain.total_length hopen (by omega)]
  rw [hbs, mpcap_copy_loop_zero b rest []]
  dsimp only
  by_cases hc : pm.n_packets_to_capture ≤ toU32 (pm.n_packets_captured + 1)
  · rw [if_pos hc]
    simp [mpcap_close, hopen, toU32_eq_self hcap, toU32_eq_self htot, hz,
      List.map_append]
  · rw [if_neg hc]
    simp [toU32_eq_self hcap, toU32_eq_self htot, hz, List.map_append]

/-- Witness for C10 at the concrete open session and chain. -/
theorem C10_zero_limit_witness :
    (pmOpenW.init_done = true ∧
      pmOpenW.current_va + mpcap_packet_header_size + 1 ≤
        pmOpenW.file_baseva + pmOpenW.max_file_size ∧
      chainW.segs ≠ [] ∧ chainW.total_length < U32_MOD ∧
      pmOpenW.n_packets_captured + 1 < U32_MOD) ∧
    (mpcap_add_buffer pmOpenW 0 chainW 0).map (fun r =>
        (r.1.current_va, r.1.n_packets_captured,
         r.1.records.map (fun q => (q.offset,
           q.header.n_packet_bytes_stored_in_file,
           q.header.n_bytes_in_packet, q.data)),
         r.2)) =
      some (pmOpenW.current_va + mpcap_packet_header_size,
        pmOpenW.n_packets_captured + 1,
        pmOpenW.records.map (fun q => (q.offset,
          q.header.n_packet_bytes_stored_in_file,
          q.header.n_bytes_in_packet, q.data)) ++
          [(pmOpenW.current_va, 0, chainW.total_length, ([] : List Nat))],
        true) :=
  ⟨⟨by decide, by decide, by decide, by decide, by decide⟩,
   C10_zero_limit pmOpenW 0 chainW (by decide) (by decide) (by decide)
     (by decide) (by decide)⟩

/-- Claim C7 (corrected).  For an append whose non-negative timestamp t has
floor below 2^32 (the width of the u32 header field), the record header
carries time_in_sec = floor t, and time_in_usec - which the source computes
by truncating 10^6 (t - floor t) rather than rounding it - is within 1
microsecond of 10^6 (t - floor t).  For floor t >= 2^32 the u32 field
cannot hold floor t, so the claim as stated over every non-negative t
fails (see the counterexample at t = 2^32). -/
theorem C7_timestamp_split (pm : mpcap_main_t) (t : ℚ) (a bb : Nat)
    (hopen : pm.init_done = true)
    (hroom : pm.current_va + mpcap_packet_header_size + a <
      pm.file_baseva + pm.max_file_size)
    (ht0 : 0 ≤ t) (htlt : ⌊t⌋ < 4294967296) :
    (mpcap_add_packet pm t a bb).2.isSome = true ∧
    ∀ d hdr, (mpcap_add_packet pm t a bb).2 = some (d, hdr) →
      ((hdr.time_in_sec : ℤ) = ⌊t⌋ ∧
       |(hdr.time_in_usec : ℚ) - 1000000 * (t - (⌊t⌋ : ℚ))| ≤ 1) := by
  have hfl0 : 0 ≤ ⌊t⌋ := Int.floor_nonneg.mpr ht0
  have hsec : f64toU32 t = (⌊t⌋).toNat := by
    unfold f64toU32 toU32 U32_MOD
    omega
  have hsecZ : ((f64toU32 t : Nat) : ℤ) = ⌊t⌋ := by
    rw [hsec]
    omega
  have hsecQ : ((f64toU32 t : Nat) : ℚ) = ((⌊t⌋ : ℤ) : ℚ) := by
    exact_mod_cast congrArg (fun z : ℤ => (z : ℚ)) hsecZ
  rw [mpcap_add_packet_success pm t a bb hopen hroom]
  refine ⟨rfl, ?_⟩
  intro d hdr hh
  simp only [Option.some_inj, Prod.mk.injEq] at hh
  obtain ⟨-, hhdr⟩ := hh
  subst hhdr
  refine ⟨hsecZ, ?_⟩
  show |((f64toU32 ((1000000 : ℚ) * (t - (f64toU32 t : ℚ))) : Nat) : ℚ) -
      1000000 * (t - (⌊t⌋ : ℚ))| ≤ 1
  rw [hsecQ]
  have hfle : ((⌊t⌋ : ℤ) : ℚ) ≤ t := Int.floor_le t
  have hflt : t < ((⌊t⌋ : ℤ) : ℚ) + 1 := Int.lt_floor_add_one t
  have hx0 : (0 : ℚ) ≤ (1000000 : ℚ) * (t - ((⌊t⌋ : ℤ) : ℚ)) := by linarith
  have hx1 : (1000000 : ℚ) * (t - ((⌊t⌋ : ℤ) : ℚ)) < 1000000 := by linarith
  have hxfl0 : 0 ≤ ⌊(1000000 : ℚ) * (t - ((⌊t⌋ : ℤ) : ℚ))⌋ :=
    Int.floor_nonneg.mpr hx0
  have hxfllt : ⌊(1000000 : ℚ) * (t - ((⌊t⌋ : ℤ) : ℚ))⌋ < 1000000 :=
    Int.floor_lt.mpr (by exact_mod_cast hx1)
  have husec : f64toU32 ((1000000 : ℚ) * (t - ((⌊t⌋ : ℤ) : ℚ))) =
      (⌊(1000000 : ℚ) * (t - ((⌊t⌋ : ℤ) : ℚ))⌋).toNat := by
    unfold f64toU32 toU32 U32_MOD
    omega
  have husecQ : ((f64toU32 ((1000000 : ℚ) * (t - ((⌊t⌋ : ℤ) : ℚ))) : Nat) : ℚ) =
      ((⌊(1000000 : ℚ) * (t - ((⌊t⌋ : ℤ) : ℚ))⌋ : ℤ) : ℚ) := by
    have h1 : ((f64toU32 ((1000000 : ℚ) * (t - ((⌊t⌋ : ℤ) : ℚ))) : Nat) : ℤ) =
        ⌊(1000000 : ℚ) * (t - ((⌊t⌋ : ℤ) : ℚ))⌋ := by
      rw [husec]
      omega
    exact_mod_cast congrArg (fun z : ℤ => (z : ℚ)) h1
  rw [husecQ]
  have hfloorle : ((⌊(1000000 : ℚ) * (t - ((⌊t⌋ : ℤ) : ℚ))⌋ : ℤ) : ℚ) ≤
      (1000000 : ℚ) * (t - ((⌊t⌋ : ℤ) : ℚ)) :=
    Int.floor_le _
  have hfloorgt : (1000000 : ℚ) * (t - ((⌊t⌋ : ℤ) : ℚ)) <
      ((⌊(1000000 : ℚ) * (t - ((⌊t⌋ : ℤ) : ℚ))⌋ : ℤ) : ℚ) + 1 :=
    Int.lt_floor_add_one _
  rw [abs_le]
  constructor <;> linarith

/-- Counterexample to C7 as stated: at t = 2^32 - a perfectly
representable non-negative double - the u32 time_in_sec field of the
written record holds 0, not floor t = 2^32. -/
theorem C7_big_timestamp_cex :
    ((mpcap_add_packet pmOpenW 4294967296 10 10).2.map
      (fun dh => dh.2.time_in_sec)) = some 0 ∧
    ⌊(4294967296 : ℚ)⌋ = 4294967296 ∧
    ¬ (((0 : Nat) : ℤ) = ⌊(4294967296 : ℚ)⌋) := by
  have h1 : ⌊(4294967296 : ℚ)⌋ = 4294967296 := by norm_num
  have h2 : f64toU32 (4294967296 : ℚ) = 0 := by
    unfold f64toU32 toU32 U32_MOD
    rw [h1]
    decide
  refine ⟨?_, h1, by rw [h1]; decide⟩
  rw [mpcap_add_packet_success pmOpenW 4294967296 10 10 (by decide) (by decide)]
  simp [h2]

/-- Witness for C7 at the rounding test point t = 2.0000005: the stored
seconds field is floor t = 2 and the stored microseconds field is within
1 of 10^6 (t - 2) = 0.5 (the source truncates it to 0). -/
theorem C7_timestamp_split_witness :
    ((0 : ℚ) ≤ tW ∧ ⌊tW⌋ < 4294967296) ∧
    (mpcap_add_packet pmOpenW tW 10 10).2.isSome = true ∧
    ((({ time_in_sec := f64toU32 tW,
         time_in_usec := f64toU32 ((1000000 : ℚ) * (tW - (f64toU32 tW : ℚ))),
         n_packet_bytes_stored_in_file := toU32 10,
         n_bytes_in_packet := toU32 10 } : mpcap_packet_header_t).time_in_sec : ℤ) =
        ⌊tW⌋ ∧
     |(({ time_in_sec := f64toU32 tW,
          time_in_usec := f64toU32 ((1000000 : ℚ) * (tW - (f64toU32 tW : ℚ))),
          n_packet_bytes_stored_in_file := toU32 10,
          n_bytes_in_packet := toU32 10 } : mpcap_packet_header_t).time_in_usec : ℚ) -
        1000000 * (tW - (⌊tW⌋ : ℚ))| ≤ 1) :=
  ⟨⟨by norm_num [tW], by norm_num [tW]⟩,
   (C7_timestamp_split pmOpenW tW 10 10 (by decide) (by decide)
      (by norm_num [tW]) (by norm_num [tW])).1,
   (C7_timestamp_split pmOpenW tW 10 10 (by decide) (by decide)
      (by norm_num [tW]) (by norm_num [tW])).2 pmOpenW.current_va
     { time_in_sec := f64toU32 tW,
       time_in_usec := f64toU32 ((1000000 : ℚ) * (tW - (f64toU32 tW : ℚ))),
       n_packet_bytes_stored_in_file := toU32 10,
       n_bytes_in_packet := toU32 10 } rfl⟩
